import Mathlib

/-!
Verification of the multilingual alt-text application: a shallow embedding of
the Express relay (`server.js`) and of the client pipeline and CSV exporter
(`client/src/AltTextApp.tsx`), with proofs of the behavioural properties of
the specification.

Remote calls to the AI provider are modelled as oracles: functions from the
request data to an `Except Unit` result, where `Except.error ()` stands for a
rejected promise (network failure, provider error, or — on the translate
path — content that `JSON.parse` rejects).
-/

/-- Models the JavaScript expression `x || d` applied to a string value that
may be `undefined`/`null` (`none`) or empty (both falsy): the default `d` is
taken in either case. -/
def jsOrElse (v : Option String) (d : String) : String :=
  match v with
  | none => d
  | some s => if s = "" then d else s

/-- An HTTP response of a route handler: either a JSON body (`res.json`) or a
status with a plain-text body (`res.status(n).send(text)`). -/
inductive HttpResp (α : Type) where
  | ok (body : α)
  | err (status : Nat) (text : String)

/-- True exactly on the success constructor of `HttpResp`. -/
def HttpResp.isOk {α : Type} : HttpResp α → Bool
  | HttpResp.ok _ => true
  | HttpResp.err _ _ => false

/-- A multipart upload as `multer` hands it to the describe handler
(`server.js`, an element of `req.files`). -/
structure UploadedFile where
  originalname : String
  mimetype : Option String
  buffer : List Nat
deriving DecidableEq

/-- The per-image result of the describe endpoint (`server.js` line 54) and
the per-item input of the translate endpoint. -/
structure DescribedItem where
  filename : String
  english_alt : String
deriving DecidableEq

/-- Character-level embedding of the JavaScript `String.prototype.trim`:
whitespace is dropped from both ends. -/
def jsTrim (s : String) : String :=
  String.mk (((s.data.dropWhile Char.isWhitespace).reverse.dropWhile
    Char.isWhitespace).reverse)

/-- Models `server.js` line 53: the optional chain
`completion.choices?.[0]?.message?.content` is the oracle's answer `content`;
a missing or empty content falls back to `"Descriptive alt text."`, and the
result is trimmed. -/
def describeAlt (content : Option String) : String :=
  jsTrim (jsOrElse content "Descriptive alt text.")

/-- Models the `for (const f of files)` loop of the describe handler
(`server.js` lines 33-55). The oracle stands for the
`openai.chat.completions.create` call on one image: `Except.error ()` is a
rejected promise, `Except.ok content` a completion whose message content is
`content`. A failure anywhere aborts the loop (the handler's `catch` then
discards every row already accumulated). -/
def describeLoop (oracle : UploadedFile → Except Unit (Option String)) :
    List UploadedFile → Except Unit (List DescribedItem)
  | [] => Except.ok []
  | f :: fs =>
    match oracle f with
    | Except.error e => Except.error e
    | Except.ok content =>
      match describeLoop oracle fs with
      | Except.error e => Except.error e
      | Except.ok rest => Except.ok (⟨f.originalname, describeAlt content⟩ :: rest)

/-- Models `app.post("/api/describe")` (`server.js` lines 28-62): an empty
`req.files` (the `req.files || []` default included) returns
`{results: []}` at once; otherwise the loop runs, and the surrounding
`try/catch` turns any rejection into status 500 with body `"Describe error"`. -/
def describeEndpoint (oracle : UploadedFile → Except Unit (Option String))
    (files : List UploadedFile) : HttpResp (List DescribedItem) :=
  if files.isEmpty then HttpResp.ok []
  else
    match describeLoop oracle files with
    | Except.ok results => HttpResp.ok results
    | Except.error _ => HttpResp.err 500 "Describe error"

/-- The fixed locale list (`server.js` line 25 and the `LOCALES` keys of
`AltTextApp.tsx`). -/
def LOCALES : List String :=
  ["es-ES", "it-IT", "nl-NL", "nl-BE", "fr-FR", "de-DE", "de-AT"]

/-- A parsed JSON object returned by the translation model, viewed as a
partial map from keys to strings (`JSON.parse(...)` at `server.js` line 98). -/
def Parsed : Type := String → Option String

/-- A JavaScript row object of the translate handler, viewed as a partial map
from property names to string values. -/
def JsRow : Type := String → Option String

/-- Models the row literal of `server.js` lines 72-82: `filename` and
`english_alt` are copied from the item, the seven locale keys start as the
empty string, and no other property is present. -/
def initRow (it : DescribedItem) : JsRow := fun k =>
  if k = "filename" then some it.filename
  else if k = "english_alt" then some it.english_alt
  else if k = "es-ES" then some ""
  else if k = "it-IT" then some ""
  else if k = "nl-NL" then some ""
  else if k = "nl-BE" then some ""
  else if k = "fr-FR" then some ""
  else if k = "de-DE" then some ""
  else if k = "de-AT" then some ""
  else none

/-- Property assignment `row[k] = v` on a JavaScript object. -/
def setKey (row : JsRow) (k : String) (v : String) : JsRow :=
  fun q => if q = k then some v else row q

/-- Models `server.js` line 99: `for (const lc of locales) row[lc] =
parsed[lc] || ""` applied to the freshly initialised row. -/
def buildRow (locales : List String) (parsed : Parsed) (it : DescribedItem) : JsRow :=
  locales.foldl (fun row lc => setKey row lc (jsOrElse (parsed lc) "")) (initRow it)

/-- Models the `for (const it of items)` loop of the translate handler
(`server.js` lines 71-102). The oracle stands for the remote chat call on one
item followed by `JSON.parse` of its content (lines 84-98): `Except.error ()`
covers a rejected promise and unparseable content alike, `Except.ok parsed`
the parsed JSON object. -/
def translateLoop (oracle : DescribedItem → Except Unit Parsed)
    (locales : List String) :
    List DescribedItem → Except Unit (List JsRow)
  | [] => Except.ok []
  | it :: its =>
    match oracle it with
    | Except.error e => Except.error e
    | Except.ok parsed =>
      match translateLoop oracle locales its with
      | Except.error e => Except.error e
      | Except.ok rest => Except.ok (buildRow locales parsed it :: rest)

/-- One field of a destructured JSON request body: absent, present but not an
array, or an array of decoded values. -/
inductive JsArrayField (α : Type) where
  | missing
  | notArray
  | array (xs : List α)

/-- Models `Array.isArray` on a destructured body field. -/
def JsArrayField.isArray {α : Type} : JsArrayField α → Bool
  | JsArrayField.array _ => true
  | _ => false

/-- The destructured translate request body `const { items, locales } =
req.body || {}` (`server.js` line 67). A missing or non-object body leaves
both fields `missing`. -/
structure TranslateBody where
  items : JsArrayField DescribedItem
  locales : JsArrayField String

/-- Models `app.post("/api/translate")` (`server.js` lines 65-109): the shape
check of line 68 rejects with status 400 and body `"Bad request"` before any
remote call; otherwise the loop runs and the `try/catch` turns any rejection
into status 500 with body `"Translate error"`. -/
def translateEndpoint (oracle : DescribedItem → Except Unit Parsed)
    (body : Option TranslateBody) : HttpResp (List JsRow) :=
  match (body.getD ⟨JsArrayField.missing, JsArrayField.missing⟩).items,
        (body.getD ⟨JsArrayField.missing, JsArrayField.missing⟩).locales with
  | JsArrayField.array items, JsArrayField.array locales =>
    (match translateLoop oracle locales items with
     | Except.ok rows => HttpResp.ok rows
     | Except.error _ => HttpResp.err 500 "Translate error")
  | _, _ => HttpResp.err 400 "Bad request"

/-- A candidate file on the client, with the properties `handleFiles` reads
(`AltTextApp.tsx`): `name`, declared media `type`, byte `size`, and content. -/
structure ClientFile where
  name : String
  type : String
  size : Nat
  content : List Nat
deriving DecidableEq

/-- The allow-list of `AltTextApp.tsx` lines 26-31 (`SUPPORTED_MIME`). -/
def SUPPORTED_MIME : List String :=
  ["image/jpeg", "image/jpg", "image/png", "image/webp"]

/-- The per-file size ceiling of `AltTextApp.tsx` line 33: 5 MB. -/
def MAX_SIZE_BYTES : Nat := 5 * 1024 * 1024

/-- The unsupported-format message pushed at `AltTextApp.tsx` line 143. -/
def formatMsg (f : ClientFile) : String :=
  f.name ++ " is not a supported image format (.jpg, .jpeg, .png, .webp)."

/-- The oversize message pushed at `AltTextApp.tsx` line 147. -/
def sizeMsg (f : ClientFile) : String :=
  f.name ++ " exceeds 5 MB. Please upload images up to 5 MB."

/-- One iteration of the validation `forEach` of `AltTextApp.tsx` lines
141-151, threading the `newErrors` and `validFiles` accumulators. -/
def validateStep (acc : List String × List ClientFile) (file : ClientFile) :
    List String × List ClientFile :=
  if ¬ (file.type ∈ SUPPORTED_MIME) then (acc.1 ++ [formatMsg file], acc.2)
  else if file.size > MAX_SIZE_BYTES then (acc.1 ++ [sizeMsg file], acc.2)
  else (acc.1, acc.2 ++ [file])

/-- The whole validation pass over a batch: error messages and valid files,
both in submission order. -/
def validatePartition (files : List ClientFile) : List String × List ClientFile :=
  files.foldl validateStep ([], [])

/-- A file passes validation exactly when its declared type is on the
allow-list and its size does not exceed the ceiling. -/
def isValidFile (f : ClientFile) : Bool :=
  decide (f.type ∈ SUPPORTED_MIME) && decide (f.size ≤ MAX_SIZE_BYTES)

/-- The error message (if any) that validation produces for one file: the
format message wins over the size message, mirroring the `if`/`else if` order
of `AltTextApp.tsx` lines 142-150. -/
def errMsgOf (f : ClientFile) : Option String :=
  if ¬ (f.type ∈ SUPPORTED_MIME) then some (formatMsg f)
  else if f.size > MAX_SIZE_BYTES then some (sizeMsg f)
  else none

/-- How the browser upload reaches the server: `form.append("files", f,
f.name)` makes `f.name` the part's filename, so `multer` reports it as
`originalname`, the declared type as `mimetype`, and the bytes as `buffer`. -/
def toUploaded (f : ClientFile) : UploadedFile :=
  ⟨f.name, some f.type, f.content⟩

/-- Models `batchDescribe` of `AltTextApp.tsx` lines 38-53 wired to the
describe endpoint: a non-ok response throws
`Describe API failed (status). text`; an ok response yields its `results`
array (which the shape check of line 51 then accepts). -/
def clientDescribe (oracle : UploadedFile → Except Unit (Option String))
    (files : List ClientFile) : Except String (List DescribedItem) :=
  match describeEndpoint oracle (files.map toUploaded) with
  | HttpResp.ok results => Except.ok results
  | HttpResp.err status text =>
    Except.error ("Describe API failed (" ++ toString status ++ "). " ++ text)

/-- Models `handleFiles` of `AltTextApp.tsx` lines 135-171 as a state
transformer on `(rows, errors)`: validation errors are appended first; if no
file survives validation nothing else happens; otherwise the describe and
translate calls run and either the completed rows are appended or the single
caught message is. The two API calls are parameters, and the row type of the
translate response is abstract. -/
def handleFilesM {ρ : Type}
    (describeApi : List ClientFile → Except String (List DescribedItem))
    (translateApi : List DescribedItem → List String → Except String (List ρ))
    (rows : List ρ) (errors : List String) (files : List ClientFile) :
    List ρ × List String :=
  let ve := validatePartition files
  let errors1 := errors ++ ve.1
  if ve.2.isEmpty then (rows, errors1)
  else
    match describeApi ve.2 with
    | Except.error msg => (rows, errors1 ++ [msg])
    | Except.ok described =>
      match translateApi described LOCALES with
      | Except.error msg => (rows, errors1 ++ [msg])
      | Except.ok completed => (rows ++ completed, errors1)

/-- A result-table row as the client `Row` interface declares it
(`AltTextApp.tsx` lines 4-14): nine string fields. -/
structure CsvRow where
  filename : String
  english_alt : String
  esES : String
  itIT : String
  nlNL : String
  nlBE : String
  frFR : String
  deDE : String
  deAT : String
deriving DecidableEq

/-- The CSV header names of `useCSV` (`AltTextApp.tsx` lines 78-91). -/
def csvHeaders : List String :=
  ["filename", "english_alt", "es-ES", "it-IT", "nl-NL", "nl-BE", "fr-FR",
   "de-DE", "de-AT"]

/-- The field values of one row in header order: the body of
`headers.map((h) => (r as any)[h] ?? "")`, where every header is a declared
field of `Row` so the `?? ""` default never fires. -/
def rowFields (r : CsvRow) : List String :=
  [r.filename, r.english_alt, r.esES, r.itIT, r.nlNL, r.nlBE, r.frFR,
   r.deDE, r.deAT]

/-- The character class of the escaping regex `/[",\n]/` at
`AltTextApp.tsx` line 96. -/
def csvSpecial (c : Char) : Bool := c = ',' || c = '"' || c = '\n'

/-- Character-level rendering of `v.replace(/"/g, '""')`: every double quote
is doubled. -/
def doubleQuotes : List Char → List Char
  | [] => []
  | c :: cs => if c = '"' then '"' :: '"' :: doubleQuotes cs else c :: doubleQuotes cs

/-- The `escape` helper of `toCSV` (`AltTextApp.tsx` lines 94-100) on the
character list of a field: a field containing a comma, quote or newline is
wrapped in quotes with internal quotes doubled, any other field is kept. -/
def escapeField (v : List Char) : List Char :=
  if v.any csvSpecial then '"' :: (doubleQuotes v ++ ['"']) else v

/-- One data line of the CSV document: the escaped fields joined by commas
(`vals.join(",")`). -/
def recordLine (fields : List (List Char)) : List Char :=
  List.intercalate [','] (fields.map escapeField)

/-- The full document at character level: the header line
(`headers.join(",")`, unescaped) followed by one line per row, joined by
`"\n"` (`AltTextApp.tsx` lines 101-107). -/
def toCSVChars (rowsC : List (List (List Char))) : List Char :=
  List.intercalate ['\n']
    (List.intercalate [','] (csvHeaders.map String.data) :: rowsC.map recordLine)

/-- The `toCSV` export of `useCSV` (`AltTextApp.tsx` lines 93-108). -/
def toCSV (rows : List CsvRow) : String :=
  String.mk (toCSVChars (rows.map (fun r => (rowFields r).map String.data)))

mutual
/-- A standard CSV parser (RFC 4180 field quoting, LF record separators),
written from the specification's words for the round-trip property: reading
characters outside quotes. A comma ends the field, a newline ends the record,
a quote opens a quoted field, anything else joins the current field. -/
def parseUnquoted : List Char → List Char → List (List Char) →
    List (List (List Char)) → List (List (List Char))
  | [], field, record, recs => recs ++ [record ++ [field]]
  | c :: cs, field, record, recs =>
    if c = ',' then parseUnquoted cs [] (record ++ [field]) recs
    else if c = '\n' then parseUnquoted cs [] [] (recs ++ [record ++ [field]])
    else if c = '"' then parseQuoted cs field record recs
    else parseUnquoted cs (field ++ [c]) record recs
termination_by l _ _ _ => l.length

/-- The quoted-field state of the standard CSV parser: a doubled quote is a
literal quote, a lone quote closes the field, anything else (commas and
newlines included) joins the field. -/
def parseQuoted : List Char → List Char → List (List Char) →
    List (List (List Char)) → List (List (List Char))
  | [], field, record, recs => recs ++ [record ++ [field]]
  | c :: cs, field, record, recs =>
    if c = '"' then
      if cs.head? = some '"' then parseQuoted cs.tail (field ++ ['"']) record recs
      else parseUnquoted cs field record recs
    else parseQuoted cs (field ++ [c]) record recs
termination_by l _ _ _ => l.length
end

/-- The standard CSV parser on a document: the list of records, each a list
of field values. -/
def stdParseCSV (s : String) : List (List String) :=
  (parseUnquoted s.data [] [] []).map (fun r => r.map String.mk)

/-! Helper lemmas about the describe loop and endpoint. -/

/-- A helper: a non-empty list is not `isEmpty`. -/
theorem mem_isEmpty_false {α : Type} {a : α} {l : List α} (h : a ∈ l) :
    l.isEmpty = false := by
  cases l with
  | nil => cases h
  | cons b t => rfl

/-- A successful describe loop relates inputs to outputs pointwise: each
result is built from the oracle's answer on the corresponding file. -/
theorem describeLoop_ok_forall2 (oracle : UploadedFile → Except Unit (Option String)) :
    ∀ (files : List UploadedFile) (results : List DescribedItem),
      describeLoop oracle files = Except.ok results →
      List.Forall₂ (fun f r => ∃ c, oracle f = Except.ok c ∧
        r = ⟨f.originalname, describeAlt c⟩) files results := by
  intro files
  induction files with
  | nil =>
    intro results h
    simp only [describeLoop, Except.ok.injEq] at h
    subst h
    exact List.Forall₂.nil
  | cons f fs ih =>
    intro results h
    simp only [describeLoop] at h
    cases hc : oracle f with
    | error e => simp [hc] at h
    | ok content =>
      simp only [hc] at h
      cases hrest : describeLoop oracle fs with
      | error e => simp [hrest] at h
      | ok rest =>
        simp only [hrest, Except.ok.injEq] at h
        subst h
        exact List.Forall₂.cons ⟨content, hc, rfl⟩ (ih rest hrest)

/-- A helper: one failing oracle call anywhere in the batch makes the whole
describe loop fail. -/
theorem describeLoop_error_of_mem (oracle : UploadedFile → Except Unit (Option String)) :
    ∀ (files : List UploadedFile) (f : UploadedFile), f ∈ files →
      oracle f = Except.error () → describeLoop oracle files = Except.error () := by
  intro files
  induction files with
  | nil => intro f hf; cases hf
  | cons g gs ih =>
    intro f hf hfail
    simp only [describeLoop]
    cases hg : oracle g with
    | error e => rfl
    | ok c =>
      rcases List.mem_cons.mp hf with rfl | hmemf
      · rw [hg] at hfail; cases hfail
      · rw [ih f hmemf hfail]

/-- A helper: a successful describe response comes from a successful loop. -/
theorem describeEndpoint_ok_inv (oracle : UploadedFile → Except Unit (Option String))
    (files : List UploadedFile) (results : List DescribedItem)
    (h : describeEndpoint oracle files = HttpResp.ok results) :
    describeLoop oracle files = Except.ok results := by
  cases files with
  | nil =>
    simp only [describeEndpoint, List.isEmpty_nil, if_true] at h
    cases h
    rfl
  | cons f fs =>
    simp only [describeEndpoint, List.isEmpty_cons, Bool.false_eq_true, if_false] at h
    cases hl : describeLoop oracle (f :: fs) with
    | ok rs =>
      simp only [hl, HttpResp.ok.injEq] at h
      subst h
      rfl
    | error e => simp [hl] at h

/-- C6: when zero files are submitted to the describe endpoint, it returns a
successful response containing an empty list of results, not an error. -/
theorem describe_empty_ok (oracle : UploadedFile → Except Unit (Option String)) :
    describeEndpoint oracle [] = HttpResp.ok [] := rfl

/-- C3: for every batch of images for which all remote calls succeed, the
describe endpoint returns exactly one `DescribedItem` per input image, in
submission order, and each result's filename equals the corresponding input
file's original name. -/
theorem describe_order_filenames (oracle : UploadedFile → Except Unit (Option String))
    (files : List UploadedFile) (results : List DescribedItem)
    (h : describeEndpoint oracle files = HttpResp.ok results) :
    results.length = files.length ∧
    results.map DescribedItem.filename = files.map UploadedFile.originalname := by
  have h2 := describeLoop_ok_forall2 oracle files results
    (describeEndpoint_ok_inv oracle files results h)
  refine ⟨(List.Forall₂.length_eq h2).symm, ?_⟩
  clear h
  induction h2 with
  | nil => rfl
  | cons hr _ ih =>
    obtain ⟨c, _, rfl⟩ := hr
    simp [ih]

/-- C3 witness: a concrete two-image batch. -/
theorem describe_order_filenames_witness :
    ([⟨"a.png", "A cat"⟩, ⟨"b.png", "A dog"⟩] : List DescribedItem).length =
      ([⟨"a.png", some "image/png", []⟩, ⟨"b.png", some "image/png", []⟩] :
        List UploadedFile).length ∧
    ([⟨"a.png", "A cat"⟩, ⟨"b.png", "A dog"⟩] : List DescribedItem).map
        DescribedItem.filename =
      ([⟨"a.png", some "image/png", []⟩, ⟨"b.png", some "image/png", []⟩] :
        List UploadedFile).map UploadedFile.originalname :=
  describe_order_filenames
    (fun f => if f.originalname = "a.png" then Except.ok (some "A cat")
      else Except.ok (some "A dog"))
    [⟨"a.png", some "image/png", []⟩, ⟨"b.png", some "image/png", []⟩]
    [⟨"a.png", "A cat"⟩, ⟨"b.png", "A dog"⟩] rfl

/-- C10: in a successful describe batch, an absent or empty model content is
replaced by the fixed default text, and any other content is returned with
surrounding whitespace trimmed. -/
theorem describe_default_alt (oracle : UploadedFile → Except Unit (Option String))
    (files : List UploadedFile) (results : List DescribedItem)
    (h : describeEndpoint oracle files = HttpResp.ok results) :
    List.Forall₂ (fun f r => ∃ c, oracle f = Except.ok c ∧
      ((c = none ∨ c = some "") → r.english_alt = "Descriptive alt text.") ∧
      (∀ s, c = some s → s ≠ "" → r.english_alt = jsTrim s)) files results := by
  have h2 := describeLoop_ok_forall2 oracle files results
    (describeEndpoint_ok_inv oracle files results h)
  refine List.Forall₂.imp ?_ h2
  rintro f r ⟨c, hc, rfl⟩
  refine ⟨c, hc, ?_, ?_⟩
  · rintro (rfl | rfl) <;> rfl
  · rintro s rfl hs
    simp [describeAlt, jsOrElse, hs]

/-- C10 witness: one image whose content is absent and one whose content has
surrounding whitespace. -/
theorem describe_default_alt_witness :
    List.Forall₂ (fun (f : UploadedFile) (r : DescribedItem) => ∃ c,
      (if f.originalname = "a.png"
        then (Except.ok none : Except Unit (Option String))
        else Except.ok (some " A dog ")) = Except.ok c ∧
      ((c = none ∨ c = some "") → r.english_alt = "Descriptive alt text.") ∧
      (∀ s, c = some s → s ≠ "" → r.english_alt = jsTrim s))
      [⟨"a.png", some "image/png", []⟩, ⟨"b.png", some "image/png", []⟩]
      [⟨"a.png", "Descriptive alt text."⟩, ⟨"b.png", "A dog"⟩] :=
  describe_default_alt
    (fun (g : UploadedFile) => if g.originalname = "a.png"
      then (Except.ok none : Except Unit (Option String))
      else Except.ok (some " A dog "))
    [⟨"a.png", some "image/png", []⟩, ⟨"b.png", some "image/png", []⟩]
    [⟨"a.png", "Descriptive alt text."⟩, ⟨"b.png", "A dog"⟩] rfl

/-- C4: if the remote call fails for any image of a describe batch, the
endpoint answers with the single batch-level error `500 Describe error` and
no per-image results, and the client pipeline leaves the result table
unchanged and surfaces exactly one error message beyond the validation
messages. -/
theorem describe_failure_batch_level {ρ : Type}
    (oracle : UploadedFile → Except Unit (Option String))
    (translateApi : List DescribedItem → List String → Except String (List ρ))
    (rows0 : List ρ) (errors0 : List String)
    (files : List ClientFile) (f : ClientFile)
    (hmem : f ∈ (validatePartition files).2)
    (hfail : oracle (toUploaded f) = Except.error ()) :
    describeEndpoint oracle ((validatePartition files).2.map toUploaded) =
      HttpResp.err 500 "Describe error" ∧
    handleFilesM (clientDescribe oracle) translateApi rows0 errors0 files =
      (rows0, errors0 ++ (validatePartition files).1 ++
        ["Describe API failed (500). Describe error"]) := by
  have hloop : describeLoop oracle ((validatePartition files).2.map toUploaded) =
      Except.error () :=
    describeLoop_error_of_mem oracle _ (toUploaded f)
      (List.mem_map_of_mem toUploaded hmem) hfail
  have hne : ((validatePartition files).2.map toUploaded).isEmpty = false :=
    mem_isEmpty_false (List.mem_map_of_mem toUploaded hmem)
  have hend : describeEndpoint oracle ((validatePartition files).2.map toUploaded) =
      HttpResp.err 500 "Describe error" := by
    simp [describeEndpoint, hne, hloop]
  refine ⟨hend, ?_⟩
  have hcd : clientDescribe oracle (validatePartition files).2 =
      Except.error "Describe API failed (500). Describe error" := by
    simp only [clientDescribe, hend]
    rfl
  have hne2 : (validatePartition files).2.isEmpty = false := mem_isEmpty_false hmem
  simp [handleFilesM, hne2, hcd, List.append_assoc]

/-- C4 witness: a one-file batch whose remote call fails. -/
theorem describe_failure_batch_level_witness :
    describeEndpoint (fun _ => Except.error ())
        ((validatePartition [⟨"a.png", "image/png", 100, []⟩]).2.map toUploaded) =
      HttpResp.err 500 "Describe error" ∧
    handleFilesM (clientDescribe (fun _ => Except.error ()))
        (fun _ _ => Except.ok ([] : List Unit)) [] []
        [⟨"a.png", "image/png", 100, []⟩] =
      ([], [] ++ (validatePartition [⟨"a.png", "image/png", 100, []⟩]).1 ++
        ["Describe API failed (500). Describe error"]) :=
  describe_failure_batch_level (fun _ => Except.error ())
    (fun _ _ => Except.ok ([] : List Unit)) [] []
    [⟨"a.png", "image/png", 100, []⟩] ⟨"a.png", "image/png", 100, []⟩
    (by decide) rfl

/-! Helper lemmas about the client-side validator. -/

/-- One validation step, restated through the per-file error message and the
per-file validity predicate. -/
theorem validateStep_eq (acc : List String × List ClientFile) (f : ClientFile) :
    validateStep acc f =
      (acc.1 ++ (errMsgOf f).toList,
       acc.2 ++ if isValidFile f then [f] else []) := by
  by_cases ht : f.type ∈ SUPPORTED_MIME
  · by_cases hs : f.size > MAX_SIZE_BYTES
    · simp [validateStep, errMsgOf, isValidFile, ht, hs, Nat.not_le.mpr hs]
    · simp [validateStep, errMsgOf, isValidFile, ht, hs, Nat.le_of_not_lt hs]
  · simp [validateStep, errMsgOf, isValidFile, ht]

/-- The validation fold, solved: errors are the per-file messages in order,
valid files are the files passing the validity predicate, in order. -/
theorem validate_foldl (files : List ClientFile) :
    ∀ (es : List String) (vs : List ClientFile),
      files.foldl validateStep (es, vs) =
        (es ++ files.filterMap errMsgOf, vs ++ files.filter isValidFile) := by
  induction files with
  | nil => intro es vs; simp
  | cons f fs ih =>
    intro es vs
    rw [List.foldl_cons, validateStep_eq, ih]
    cases he : errMsgOf f with
    | none =>
      cases hv : isValidFile f with
      | false => simp [List.filterMap_cons, List.filter_cons, he, hv]
      | true => simp [List.filterMap_cons, List.filter_cons, he, hv]
    | some m =>
      cases hv : isValidFile f with
      | false => simp [List.filterMap_cons, List.filter_cons, he, hv]
      | true => simp [List.filterMap_cons, List.filter_cons, he, hv]

/-- The validation pass, solved. -/
theorem validatePartition_eq (files : List ClientFile) :
    validatePartition files =
      (files.filterMap errMsgOf, files.filter isValidFile) := by
  simpa [validatePartition] using validate_foldl files [] []

/-- C7: every file whose declared media type is outside the allow-list is
rejected with its format message and kept out of the valid partition, and the
valid partition is exactly the files passing validation on their own, so
valid files are unaffected by rejected siblings. -/
theorem validator_mime_partition (files : List ClientFile) :
    (validatePartition files).2 = files.filter isValidFile ∧
    ∀ f ∈ files, ¬ (f.type ∈ SUPPORTED_MIME) →
      formatMsg f ∈ (validatePartition files).1 ∧
      f ∉ (validatePartition files).2 := by
  rw [validatePartition_eq]
  refine ⟨rfl, ?_⟩
  intro f hf ht
  constructor
  · exact List.mem_filterMap.mpr ⟨f, hf, by simp [errMsgOf, ht]⟩
  · intro hmem
    have hval := List.of_mem_filter hmem
    simp [isValidFile, ht] at hval

/-- C7 witness: a supported and an unsupported file in one batch. -/
theorem validator_mime_partition_witness :
    formatMsg ⟨"doc.pdf", "application/pdf", 10, []⟩ ∈
      (validatePartition [⟨"ok.png", "image/png", 10, []⟩,
        ⟨"doc.pdf", "application/pdf", 10, []⟩]).1 ∧
    (⟨"doc.pdf", "application/pdf", 10, []⟩ : ClientFile) ∉
      (validatePartition [⟨"ok.png", "image/png", 10, []⟩,
        ⟨"doc.pdf", "application/pdf", 10, []⟩]).2 :=
  (validator_mime_partition [⟨"ok.png", "image/png", 10, []⟩,
      ⟨"doc.pdf", "application/pdf", 10, []⟩]).2
    ⟨"doc.pdf", "application/pdf", 10, []⟩ (by decide) (by decide)

/-- C8 counterexample: a 6 MB file whose declared type is not on the
allow-list is larger than the ceiling, yet the validator produces the
format message for it and no size-specific message at all. -/
theorem oversized_unsupported_cex :
    (⟨"big.gif", "image/gif", 6 * 1024 * 1024, []⟩ : ClientFile).size >
      MAX_SIZE_BYTES ∧
    sizeMsg ⟨"big.gif", "image/gif", 6 * 1024 * 1024, []⟩ ∉
      (validatePartition [⟨"big.gif", "image/gif", 6 * 1024 * 1024, []⟩]).1 ∧
    (validatePartition [⟨"big.gif", "image/gif", 6 * 1024 * 1024, []⟩]).1 =
      [formatMsg ⟨"big.gif", "image/gif", 6 * 1024 * 1024, []⟩] := by
  refine ⟨by decide, by decide, by decide⟩

/-- C8 (amended): every file larger than 5 MiB is rejected — kept out of the
valid partition — and receives the size-specific message exactly when its
declared media type is on the allow-list; an oversized file of an
unsupported type receives the format message instead. -/
theorem oversized_rejected_amended (files : List ClientFile) (f : ClientFile)
    (hmem : f ∈ files) (hsize : f.size > MAX_SIZE_BYTES) :
    f ∉ (validatePartition files).2 ∧
    (f.type ∈ SUPPORTED_MIME → sizeMsg f ∈ (validatePartition files).1) ∧
    (¬ (f.type ∈ SUPPORTED_MIME) → formatMsg f ∈ (validatePartition files).1) := by
  rw [validatePartition_eq]
  refine ⟨?_, ?_, ?_⟩
  · intro hmemf
    have hval := List.of_mem_filter hmemf
    simp [isValidFile, Nat.not_le.mpr hsize] at hval
  · intro ht
    exact List.mem_filterMap.mpr ⟨f, hmem, by simp [errMsgOf, ht, hsize]⟩
  · intro ht
    exact List.mem_filterMap.mpr ⟨f, hmem, by simp [errMsgOf, ht]⟩

/-- C8 (amended) witness: a supported 6 MB file is rejected with the size
message. -/
theorem oversized_rejected_amended_witness :
    (⟨"big.png", "image/png", 6 * 1024 * 1024, []⟩ : ClientFile) ∉
      (validatePartition [⟨"big.png", "image/png", 6 * 1024 * 1024, []⟩]).2 ∧
    sizeMsg ⟨"big.png", "image/png", 6 * 1024 * 1024, []⟩ ∈
      (validatePartition [⟨"big.png", "image/png", 6 * 1024 * 1024, []⟩]).1 :=
  ⟨(oversized_rejected_amended [⟨"big.png", "image/png", 6 * 1024 * 1024, []⟩]
      ⟨"big.png", "image/png", 6 * 1024 * 1024, []⟩ (by decide) (by decide)).1,
   (oversized_rejected_amended [⟨"big.png", "image/png", 6 * 1024 * 1024, []⟩]
      ⟨"big.png", "image/png", 6 * 1024 * 1024, []⟩ (by decide) (by decide)).2.1
     (by decide)⟩

/-! Helper lemmas about the translate loop and endpoint. -/

/-- The locale fold of the translate handler, solved pointwise: a key in the
request's locale list gets the parsed value (defaulted to the empty string),
any other key keeps its initial value. -/
theorem foldl_setKey_eq (parsed : Parsed) :
    ∀ (locales : List String) (acc : JsRow) (k : String),
      (locales.foldl (fun row lc => setKey row lc (jsOrElse (parsed lc) "")) acc) k =
        if k ∈ locales then some (jsOrElse (parsed k) "") else acc k := by
  intro locales
  induction locales with
  | nil => intro acc k; simp
  | cons lc rest ih =>
    intro acc k
    rw [List.foldl_cons, ih]
    by_cases hk : k ∈ rest
    · simp [hk, List.mem_cons]
    · by_cases hkl : k = lc
      · subst hkl; simp [hk, setKey]
      · simp [hk, hkl, setKey, List.mem_cons]

/-- The row built for one item, solved pointwise. -/
theorem buildRow_eq (locales : List String) (parsed : Parsed)
    (it : DescribedItem) (k : String) :
    buildRow locales parsed it k =
      if k ∈ locales then some (jsOrElse (parsed k) "") else initRow it k :=
  foldl_setKey_eq parsed locales (initRow it) k

/-- A successful translate loop relates items to rows pointwise. -/
theorem translateLoop_ok_forall2 (oracle : DescribedItem → Except Unit Parsed)
    (locales : List String) :
    ∀ (items : List DescribedItem) (rows : List JsRow),
      translateLoop oracle locales items = Except.ok rows →
      List.Forall₂ (fun it row => ∃ parsed, oracle it = Except.ok parsed ∧
        row = buildRow locales parsed it) items rows := by
  intro items
  induction items with
  | nil =>
    intro rows h
    simp only [translateLoop, Except.ok.injEq] at h
    subst h
    exact List.Forall₂.nil
  | cons it its ih =>
    intro rows h
    simp only [translateLoop] at h
    cases hc : oracle it with
    | error e => simp [hc] at h
    | ok parsed =>
      simp only [hc] at h
      cases hrest : translateLoop oracle locales its with
      | error e => simp [hrest] at h
      | ok rest =>
        simp only [hrest, Except.ok.injEq] at h
        subst h
        exact List.Forall₂.cons ⟨parsed, hc, rfl⟩ (ih rest hrest)

/-- A helper: when every item's oracle call succeeds, the translate loop
succeeds. -/
theorem translateLoop_ok_of_all_ok (oracle : DescribedItem → Except Unit Parsed)
    (locales : List String) :
    ∀ (items : List DescribedItem),
      (∀ it ∈ items, ∃ parsed, oracle it = Except.ok parsed) →
      ∃ rows, translateLoop oracle locales items = Except.ok rows := by
  intro items
  induction items with
  | nil => exact fun _ => ⟨[], rfl⟩
  | cons it its ih =>
    intro hok
    obtain ⟨parsed, hp⟩ := hok it (List.mem_cons_self it its)
    obtain ⟨rest, hrest⟩ := ih (fun x hx => hok x (List.mem_cons_of_mem _ hx))
    exact ⟨buildRow locales parsed it :: rest, by simp [translateLoop, hp, hrest]⟩

/-- A helper: a successful translate response on an array-shaped body comes
from a successful loop. -/
theorem translateEndpoint_ok_inv (oracle : DescribedItem → Except Unit Parsed)
    (items : List DescribedItem) (locales : List String) (rows : List JsRow)
    (h : translateEndpoint oracle
      (some ⟨JsArrayField.array items, JsArrayField.array locales⟩) =
      HttpResp.ok rows) :
    translateLoop oracle locales items = Except.ok rows := by
  simp only [translateEndpoint, Option.getD_some] at h
  cases hl : translateLoop oracle locales items with
  | ok rs =>
    simp only [hl, HttpResp.ok.injEq] at h
    subst h
    rfl
  | error e => simp [hl] at h

/-- C1: for a well-formed translate request over the seven fixed locales
whose remote calls all succeed, the endpoint answers with one row per item,
and every row carries all seven locale keys; a key the parsed response
carries is present with its (empty-string-defaulted) value, and a key the
parsed response omitted is present with the empty string — the batch does
not fail because of the omission. -/
theorem translate_rows_all_locales (oracle : DescribedItem → Except Unit Parsed)
    (items : List DescribedItem)
    (hok : ∀ it ∈ items, ∃ parsed, oracle it = Except.ok parsed) :
    ∃ rows, translateEndpoint oracle
        (some ⟨JsArrayField.array items, JsArrayField.array LOCALES⟩) =
        HttpResp.ok rows ∧
      List.Forall₂ (fun it row => ∃ parsed, oracle it = Except.ok parsed ∧
        ∀ lc ∈ LOCALES, row lc = some (jsOrElse (parsed lc) "") ∧
          (parsed lc = none → row lc = some "")) items rows := by
  obtain ⟨rows, hrows⟩ := translateLoop_ok_of_all_ok oracle LOCALES items hok
  refine ⟨rows, by simp [translateEndpoint, hrows], ?_⟩
  refine List.Forall₂.imp ?_ (translateLoop_ok_forall2 oracle LOCALES items rows hrows)
  rintro it row ⟨parsed, hp, rfl⟩
  refine ⟨parsed, hp, ?_⟩
  intro lc hlc
  rw [buildRow_eq, if_pos hlc]
  exact ⟨rfl, fun hn => by rw [hn]; rfl⟩

/-- C1 witness: one item whose parsed response carries only the Spanish key;
all seven keys are present on the resulting row and the omitted keys are
empty. -/
theorem translate_rows_all_locales_witness :
    ∃ rows, translateEndpoint
        (fun (_ : DescribedItem) =>
          Except.ok (fun k => if k = "es-ES" then some "Un gato" else none))
        (some ⟨JsArrayField.array [⟨"cat.png", "A cat"⟩],
          JsArrayField.array LOCALES⟩) =
        HttpResp.ok rows ∧
      List.Forall₂ (fun (_ : DescribedItem) (row : JsRow) => ∃ parsed,
        (Except.ok (fun k => if k = "es-ES" then some "Un gato" else none) :
            Except Unit Parsed) = Except.ok parsed ∧
        ∀ lc ∈ LOCALES, row lc = some (jsOrElse (parsed lc) "") ∧
          (parsed lc = none → row lc = some "")) [⟨"cat.png", "A cat"⟩] rows :=
  translate_rows_all_locales
    (fun _ => Except.ok (fun k => if k = "es-ES" then some "Un gato" else none))
    [⟨"cat.png", "A cat"⟩]
    (fun _ _ => ⟨fun k => if k = "es-ES" then some "Un gato" else none, rfl⟩)

/-- C9 counterexample: a shape-valid request whose `locales` array contains
the string `"filename"` makes the handler overwrite the row's `filename`
property: the item's filename `a.png` comes back as the empty string. -/
theorem translate_clobbers_filename_cex :
    translateEndpoint (fun _ => Except.ok (fun _ => none))
        (some ⟨JsArrayField.array [⟨"a.png", "x"⟩],
          JsArrayField.array ["filename"]⟩) =
      HttpResp.ok [buildRow ["filename"] (fun _ => none) ⟨"a.png", "x"⟩] ∧
    (buildRow ["filename"] (fun _ => none) ⟨"a.png", "x"⟩) "filename" =
      some "" ∧
    ("" : String) ≠ "a.png" :=
  ⟨rfl, rfl, by decide⟩

/-- C9 (amended): for a shape-valid translate request whose `locales` array
contains neither `"filename"` nor `"english_alt"` (as with the fixed locale
list the client sends), every returned row carries the corresponding item's
filename and English description unchanged. -/
theorem translate_preserves_fields_amended
    (oracle : DescribedItem → Except Unit Parsed)
    (items : List DescribedItem) (locales : List String) (rows : List JsRow)
    (hf : ¬ ("filename" ∈ locales)) (he : ¬ ("english_alt" ∈ locales))
    (h : translateEndpoint oracle
      (some ⟨JsArrayField.array items, JsArrayField.array locales⟩) =
      HttpResp.ok rows) :
    List.Forall₂ (fun it row => row "filename" = some it.filename ∧
      row "english_alt" = some it.english_alt) items rows := by
  refine List.Forall₂.imp ?_ (translateLoop_ok_forall2 oracle locales items rows
    (translateEndpoint_ok_inv oracle items locales rows h))
  rintro it row ⟨parsed, _, rfl⟩
  rw [buildRow_eq, buildRow_eq, if_neg hf, if_neg he]
  exact ⟨rfl, rfl⟩

/-- C9 (amended) witness: one item translated over the seven fixed locales
keeps its filename and English description. -/
theorem translate_preserves_fields_amended_witness :
    List.Forall₂ (fun (it : DescribedItem) (row : JsRow) =>
      row "filename" = some it.filename ∧
      row "english_alt" = some it.english_alt)
      [⟨"cat.png", "A cat"⟩]
      [buildRow LOCALES (fun _ => none) ⟨"cat.png", "A cat"⟩] :=
  translate_preserves_fields_amended (fun _ => Except.ok (fun _ => none))
    [⟨"cat.png", "A cat"⟩] LOCALES
    [buildRow LOCALES (fun _ => none) ⟨"cat.png", "A cat"⟩]
    (by decide) (by decide) rfl

/-- C5 counterexample: a request whose `items` and `locales` fields are both
arrays for which the endpoint does not return a rows object: the remote call
fails, and the answer is the server error `500 Translate error`. -/
theorem translate_arrays_not_ok_cex :
    (translateEndpoint (fun _ => Except.error ())
        (some ⟨JsArrayField.array [⟨"a.png", "x"⟩],
          JsArrayField.array ["es-ES"]⟩)).isOk = false ∧
    translateEndpoint (fun _ => Except.error ())
        (some ⟨JsArrayField.array [⟨"a.png", "x"⟩],
          JsArrayField.array ["es-ES"]⟩) =
      HttpResp.err 500 "Translate error" :=
  ⟨rfl, rfl⟩

/-- C5 (amended): a translate request whose body lacks an array-valued
`items` or an array-valued `locales` field (a missing or non-object body
included) is rejected with `400 Bad request`, independently of the remote
oracle — no remote call is issued; and when both fields are arrays and every
per-item remote call succeeds and parses, the endpoint returns a rows
object. -/
theorem translate_shape_amended (oracle : DescribedItem → Except Unit Parsed)
    (body : Option TranslateBody) :
    (((body.getD ⟨JsArrayField.missing, JsArrayField.missing⟩).items.isArray = false ∨
      (body.getD ⟨JsArrayField.missing, JsArrayField.missing⟩).locales.isArray = false) →
      translateEndpoint oracle body = HttpResp.err 400 "Bad request" ∧
      ∀ oracle2, translateEndpoint oracle2 body = translateEndpoint oracle body) ∧
    (∀ items locales,
      body.getD ⟨JsArrayField.missing, JsArrayField.missing⟩ =
        ⟨JsArrayField.array items, JsArrayField.array locales⟩ →
      (∀ it ∈ items, ∃ parsed, oracle it = Except.ok parsed) →
      ∃ rows, translateEndpoint oracle body = HttpResp.ok rows) := by
  constructor
  · intro hmal
    have h400 : ∀ oracle3 : DescribedItem → Except Unit Parsed,
        translateEndpoint oracle3 body = HttpResp.err 400 "Bad request" := by
      intro oracle3
      cases hi : (body.getD ⟨JsArrayField.missing, JsArrayField.missing⟩).items with
      | array xs =>
        cases hl : (body.getD ⟨JsArrayField.missing, JsArrayField.missing⟩).locales with
        | array ls =>
          rcases hmal with hmal | hmal
          · rw [hi] at hmal; cases hmal
          · rw [hl] at hmal; cases hmal
        | missing => simp [translateEndpoint, hi, hl]
        | notArray => simp [translateEndpoint, hi, hl]
      | missing => simp [translateEndpoint, hi]
      | notArray => simp [translateEndpoint, hi]
    exact ⟨h400 oracle, fun oracle2 => by rw [h400 oracle, h400 oracle2]⟩
  · intro items locales hb hok
    obtain ⟨rows, hrows⟩ := translateLoop_ok_of_all_ok oracle locales items hok
    exact ⟨rows, by simp [translateEndpoint, hb, hrows]⟩

/-- C5 (amended) witness: a body whose `items` field is not an array is
rejected with `400 Bad request`. -/
theorem translate_shape_amended_witness :
    translateEndpoint (fun _ => Except.error ())
        (some ⟨JsArrayField.notArray, JsArrayField.array ["es-ES"]⟩) =
      HttpResp.err 400 "Bad request" :=
  ((translate_shape_amended (fun _ => Except.error ())
      (some ⟨JsArrayField.notArray, JsArrayField.array ["es-ES"]⟩)).1
    (Or.inl rfl)).1

/-! Helper lemmas for the CSV round trip. -/

/-- A helper: `intercalate` on a one-element list. -/
theorem intercalate_one {α : Type} (sep : List α) (x : List α) :
    List.intercalate sep [x] = x := by
  simp [List.intercalate]

/-- A helper: `intercalate` on a list with at least two elements. -/
theorem intercalate_cons₂ {α : Type} (sep : List α) (x y : List α)
    (ys : List (List α)) :
    List.intercalate sep (x :: y :: ys) =
      x ++ (sep ++ List.intercalate sep (y :: ys)) := by
  simp [List.intercalate]

/-- A helper: a list starting with a character other than a quote does not
start with a quote. -/
theorem head_cons_ne_quote {c : Char} (h : c ≠ '"') (l : List Char) :
    (c :: l).head? ≠ some '"' := by
  simp [h]

/-- Reading a field with no special character in unquoted mode just moves it
into the field accumulator. -/
theorem parseUnquoted_plain :
    ∀ (v rest field : List Char) (record : List (List Char))
      (recs : List (List (List Char))),
      v.any csvSpecial = false →
      parseUnquoted (v ++ rest) field record recs =
        parseUnquoted rest (field ++ v) record recs := by
  intro v
  induction v with
  | nil => intro rest field record recs _; simp
  | cons c cs ih =>
    intro rest field record recs h
    simp only [List.any_cons, Bool.or_eq_false_iff, csvSpecial,
      decide_eq_false_iff_not] at h
    obtain ⟨⟨⟨h1, h2⟩, h3⟩, hcs⟩ := h
    rw [List.cons_append, parseUnquoted, if_neg h1, if_neg h3, if_neg h2,
      ih rest (field ++ [c]) record recs hcs]
    simp

/-- Reading the quote-doubled rendering of a field followed by its closing
quote in quoted mode moves the raw field into the accumulator and returns to
unquoted mode, provided no quote follows immediately. -/
theorem parseQuoted_escaped :
    ∀ (v rest field : List Char) (record : List (List Char))
      (recs : List (List (List Char))),
      rest.head? ≠ some '"' →
      parseQuoted (doubleQuotes v ++ ('"' :: rest)) field record recs =
        parseUnquoted rest (field ++ v) record recs := by
  intro v
  induction v with
  | nil =>
    intro rest field record recs hrest
    simp only [doubleQuotes, List.nil_append]
    rw [parseQuoted, if_pos rfl, if_neg hrest]
    simp
  | cons c cs ih =>
    intro rest field record recs hrest
    by_cases hc : c = '"'
    · subst hc
      rw [show doubleQuotes ('"' :: cs) = '"' :: '"' :: doubleQuotes cs from by
        rw [doubleQuotes, if_pos rfl]]
      simp only [List.cons_append]
      rw [parseQuoted, if_pos rfl, if_pos (by simp), List.tail_cons,
        ih rest (field ++ ['"']) record recs hrest]
      simp
    · simp only [doubleQuotes, if_neg hc, List.cons_append]
      rw [parseQuoted, if_neg hc, ih rest (field ++ [c]) record recs hrest]
      simp

/-- Reading one escaped field in unquoted mode moves the raw field into the
accumulator, provided no quote follows immediately. -/
theorem parse_field (v rest field : List Char) (record : List (List Char))
    (recs : List (List (List Char))) (hrest : rest.head? ≠ some '"') :
    parseUnquoted (escapeField v ++ rest) field record recs =
      parseUnquoted rest (field ++ v) record recs := by
  by_cases hv : v.any csvSpecial
  · simp only [escapeField, if_pos hv, List.cons_append]
    rw [parseUnquoted, if_neg (by decide), if_neg (by decide), if_pos rfl,
      List.append_assoc]
    exact parseQuoted_escaped v rest field record recs hrest
  · simp only [escapeField, if_neg hv]
    exact parseUnquoted_plain v rest field record recs (by simpa using hv)

/-- Reading one rendered record followed by a newline appends the record's
raw fields as one parsed record and continues with the rest. -/
theorem parse_record_nl :
    ∀ (fs : List (List Char)), fs ≠ [] →
    ∀ (rest : List Char) (record : List (List Char))
      (recs : List (List (List Char))),
      parseUnquoted (recordLine fs ++ ('\n' :: rest)) [] record recs =
        parseUnquoted rest [] [] (recs ++ [record ++ fs]) := by
  intro fs
  induction fs with
  | nil => intro h; cases h rfl
  | cons f fs' ih =>
    intro _ rest record recs
    cases fs' with
    | nil =>
      rw [show recordLine [f] = escapeField f from by
        simp [recordLine, intercalate_one]]
      rw [parse_field f ('\n' :: rest) [] record recs
        (head_cons_ne_quote (by decide) rest)]
      simp only [List.nil_append]
      rw [parseUnquoted, if_neg (by decide), if_pos rfl]
    | cons f2 fs'' =>
      rw [show recordLine (f :: f2 :: fs'') =
          escapeField f ++ ([','] ++ recordLine (f2 :: fs'')) from by
        simp [recordLine, intercalate_cons₂]]
      simp only [List.cons_append, List.nil_append, List.append_assoc]
      rw [parse_field f (',' :: (recordLine (f2 :: fs'') ++ '\n' :: rest))
        [] record recs (head_cons_ne_quote (by decide) _)]
      simp only [List.nil_append]
      rw [parseUnquoted, if_pos rfl,
        ih (by simp) rest (record ++ [f]) recs]
      simp

/-- Reading one rendered record at the end of input appends the record's raw
fields as the final parsed record. -/
theorem parse_record_end :
    ∀ (fs : List (List Char)), fs ≠ [] →
    ∀ (record : List (List Char)) (recs : List (List (List Char))),
      parseUnquoted (recordLine fs) [] record recs = recs ++ [record ++ fs] := by
  intro fs
  induction fs with
  | nil => intro h; cases h rfl
  | cons f fs' ih =>
    intro _ record recs
    cases fs' with
    | nil =>
      rw [show recordLine [f] = escapeField f ++ [] from by
        simp [recordLine, intercalate_one]]
      rw [parse_field f [] [] record recs (by simp)]
      simp only [List.nil_append]
      rw [parseUnquoted]
    | cons f2 fs'' =>
      rw [show recordLine (f :: f2 :: fs'') =
          escapeField f ++ ([','] ++ recordLine (f2 :: fs'')) from by
        simp [recordLine, intercalate_cons₂]]
      simp only [List.cons_append, List.nil_append]
      rw [parse_field f (',' :: recordLine (f2 :: fs''))
        [] record recs (head_cons_ne_quote (by decide) _)]
      simp only [List.nil_append]
      rw [parseUnquoted, if_pos rfl, ih (by simp) (record ++ [f]) recs]
      simp

/-- Reading a whole rendered document yields exactly the raw records. -/
theorem parse_doc :
    ∀ (rs : List (List (List Char))), rs ≠ [] → (∀ r ∈ rs, r ≠ []) →
    ∀ (recs : List (List (List Char))),
      parseUnquoted (List.intercalate ['\n'] (rs.map recordLine)) [] [] recs =
        recs ++ rs := by
  intro rs
  induction rs with
  | nil => intro h; cases h rfl
  | cons r rs' ih =>
    intro _ hne recs
    cases rs' with
    | nil =>
      rw [show List.map recordLine [r] = [recordLine r] from rfl,
        intercalate_one, parse_record_end r (hne r (by simp)) [] recs]
      simp
    | cons r2 rs'' =>
      rw [show List.map recordLine (r :: r2 :: rs'') =
          recordLine r :: recordLine r2 :: List.map recordLine rs'' from rfl,
        intercalate_cons₂]
      simp only [List.cons_append, List.nil_append]
      rw [parse_record_nl r (hne r (by simp)) _ [] recs,
        show (List.intercalate ['\n']
            (recordLine r2 :: List.map recordLine rs'')) =
          List.intercalate ['\n'] (List.map recordLine (r2 :: rs'')) from rfl,
        ih (by simp) (fun x hx => hne x (List.mem_cons_of_mem r hx)) (recs ++ [[] ++ r])]
      simp

/-- A helper: rebuilding a string from its characters is the identity. -/
theorem string_mk_data (s : String) : String.mk s.data = s := rfl

/-- A helper: the composite of the two string conversions is the identity on
lists of strings. -/
theorem map_mk_comp_data (l : List String) :
    List.map (String.mk ∘ String.data) l = l := by
  induction l with
  | nil => rfl
  | cons s t ih => simp only [List.map_cons, Function.comp_apply,
      string_mk_data, ih]

/-- The exported document, rephrased so the header line is also a rendered
record (escaping the headers is the identity). -/
theorem toCSVChars_eq (rowsC : List (List (List Char))) :
    toCSVChars rowsC =
      List.intercalate ['\n']
        (((csvHeaders.map String.data) :: rowsC).map recordLine) := by
  have hh : recordLine (csvHeaders.map String.data) =
      List.intercalate [','] (csvHeaders.map String.data) := by decide
  simp [toCSVChars, hh]

/-- C2: serialising any list of rows with the CSV exporter and re-parsing the
document with the standard CSV parser yields exactly the header record
followed by one record per row whose field values equal the original nine
fields — commas, quotes and embedded newlines included. -/
theorem csv_roundtrip (rows : List CsvRow) :
    stdParseCSV (toCSV rows) = csvHeaders :: rows.map rowFields := by
  have hdoc : parseUnquoted
      (toCSVChars (rows.map (fun r => (rowFields r).map String.data))) [] [] [] =
      (csvHeaders.map String.data) ::
        rows.map (fun r => (rowFields r).map String.data) := by
    rw [toCSVChars_eq]
    rw [parse_doc _ (by simp) ?hne []]
    · simp
    case hne =>
      intro r hr
      simp only [List.mem_cons] at hr
      rcases hr with rfl | hr
      · decide
      · obtain ⟨x, _, rfl⟩ := List.mem_map.mp hr
        simp [rowFields]
  unfold stdParseCSV toCSV
  rw [show (String.mk (toCSVChars
      (rows.map (fun r => (rowFields r).map String.data)))).data =
    toCSVChars (rows.map (fun r => (rowFields r).map String.data)) from rfl]
  rw [hdoc]
  simp [List.map_map, map_mk_comp_data]
